import Mathlib

/-!
Shallow embedding of the Lesson Progression & Gamification Engine of the
code-fixer-academy repository (React + Supabase).  JavaScript strings are
modelled as `List Char`; JavaScript `String.prototype.trim` as `trimStr`;
the relevant Supabase tables (`user_progress`, `profiles`, `user_badges`)
as in-memory lists with their SQL uniqueness constraints made explicit.
Each definition is translated from the source file named in its doc
comment.
-/

/-- JavaScript strings are modelled as lists of characters. -/
abbrev Str := List Char

/-- Whitespace test used by `trimStr`, modelling the character class removed
by JavaScript `String.prototype.trim`. -/
def isWs (c : Char) : Bool := c.isWhitespace

/-- Model of JavaScript `s.trim()`: drop whitespace from both ends. -/
def trimStr (s : Str) : Str :=
  ((s.dropWhile isWs).reverse.dropWhile isWs).reverse

/-- Lesson row, from the `Lesson` interface in `src/pages/Challenge.tsx`
(backed by the `lessons` table). -/
structure Lesson where
  id : Str
  title : Str
  language : Str
  difficulty : Str
  description : Str
  starter_code : Str
  expected_output : Str
  hints : List Str
  points : Nat
deriving DecidableEq

/-- Outcome of one `checkSolution` evaluation. -/
inductive Verdict where
  | pass
  | fail
deriving DecidableEq

/-- Per-session component state of `Challenge`: the `attempts` counter and
the `showHints` boolean array (`useState` hooks in `src/pages/Challenge.tsx`). -/
structure SessionState where
  attempts : Nat
  showHints : List Bool
deriving DecidableEq

/-- Model of the JavaScript array update `a[i] = true` on a copy of the
array: positions that did not exist yet are filled with `false`
(a sparse hole reads as falsy wherever the component consults it). -/
def setTrue : List Bool → Nat → List Bool
  | [], 0 => [true]
  | [], n + 1 => false :: setTrue [] n
  | _ :: bs, 0 => true :: bs
  | b :: bs, n + 1 => b :: setTrue bs n

/-- Verdict part of `checkSolution` (`src/pages/Challenge.tsx` lines
166-174): `output.trim() === currentLesson.expected_output.trim()`. -/
def checkSolutionVerdict (lesson : Lesson) (output : Str) : Verdict :=
  if trimStr output = trimStr lesson.expected_output then .pass else .fail

/-- State transition of `checkSolution` (`src/pages/Challenge.tsx` lines
166-219): increment `attempts`; on success report pass; on failure reveal
hint index 0 exactly when the new attempt count is 2 and the lesson has at
least one hint (`newAttempts === 2 && currentLesson.hints &&
currentLesson.hints.length > 0`). -/
def checkSolution (lesson : Lesson) (output : Str) (s : SessionState) :
    SessionState × Verdict :=
  let newAttempts := s.attempts + 1
  if trimStr output = trimStr lesson.expected_output then
    ({ s with attempts := newAttempts }, .pass)
  else if newAttempts = 2 ∧ lesson.hints ≠ [] then
    ({ attempts := newAttempts, showHints := setTrue s.showHints 0 }, .fail)
  else
    ({ s with attempts := newAttempts }, .fail)

/-- Number of hints used, as `saveProgress` computes it:
`showHints.filter(Boolean).length`. -/
def hintsUsedOf (s : SessionState) : Nat := (s.showHints.filter id).length

/-- Model of JavaScript `s.includes(pat)`. -/
def hasSubstr : Str → Str → Bool
  | [], pat => pat.isPrefixOf []
  | c :: rest, pat => pat.isPrefixOf (c :: rest) || hasSubstr rest pat

/-- Banner line prepended by the generic simulation branch of `runCode`. -/
def successLine : Str := "Code executed successfully!\n".data

/-- Simulated execution `runCode` (`src/pages/Challenge.tsx` lines 138-164):
for the python lesson titled Off-by-One Error in Loop the submitted code is
pattern-matched for the fixed/buggy range call; every other lesson gets the
generic banner followed by the trimmed expected output, regardless of the
submitted code. -/
def runCode (lesson : Lesson) (code : Str) : Str :=
  let trimmedCode := trimStr code
  let expectedOutput := trimStr lesson.expected_output
  if lesson.language = "python".data ∧
      lesson.title = "Off-by-One Error in Loop".data then
    if hasSubstr trimmedCode "range(1, 6)".data then
      expectedOutput
    else if hasSubstr trimmedCode "range(1, 7)".data then
      "1\n2\n3\n4\n5\n6".data
    else
      "Error: Invalid code or syntax error".data
  else
    successLine ++ expectedOutput

/-- Profile row (`profiles` table; see the SQL schema bundled with
`src/integrations/supabase/types.ts`).  The counter columns are nullable in
the generated types, hence `Option Nat`; `created_at` is an abstract
timestamp. -/
structure ProfileRow where
  user_id : Str
  username : Str
  created_at : Nat
  total_lessons_completed : Option Nat
  total_points : Option Nat
  current_streak : Option Nat
  best_streak : Option Nat
deriving DecidableEq

/-- Progress row (`user_progress` table). -/
structure ProgressRow where
  user_id : Str
  lesson_id : Str
  attempts : Nat
  hints_used : Nat
deriving DecidableEq

/-- The slice of the database that `saveProgress` touches. -/
structure Store where
  user_progress : List ProgressRow
  profiles : List ProfileRow
deriving DecidableEq

/-- Predicate matching a progress row for a given (user, lesson) pair. -/
def pairRow (uid lid : Str) (r : ProgressRow) : Bool :=
  r.user_id = uid ∧ r.lesson_id = lid

/-- INSERT into `user_progress`.  The table carries
`UNIQUE(user_id, lesson_id)`, so PostgreSQL rejects a duplicate insert; the
supabase client returns that error in the result object, which
`saveProgress` never reads, so the rejected insert simply leaves the table
unchanged. -/
def insertProgress (db : Store) (r : ProgressRow) : Store :=
  if db.user_progress.any (pairRow r.user_id r.lesson_id) then db
  else { db with user_progress := db.user_progress ++ [r] }

/-- SELECT ... FROM profiles WHERE user_id = uid .single():
`user_id` is UNIQUE, so the first match is the row. -/
def getProfile (db : Store) (uid : Str) : Option ProfileRow :=
  db.profiles.find? (fun p => p.user_id = uid)

/-- UPDATE profiles SET total_lessons_completed = c, total_points = p
WHERE user_id = uid.  Only the two counter columns are written. -/
def updateProfileTotals (db : Store) (uid : Str) (completed points : Nat) :
    Store :=
  { db with
    profiles := db.profiles.map (fun p =>
      if p.user_id = uid then
        { p with
          total_lessons_completed := some completed
          total_points := some points }
      else p) }

/-- Error taxonomy of the spec's scoring step. -/
inductive ScoringError where
  | ProfileNotFound
deriving DecidableEq

/-- Model of `saveProgress` (`src/pages/Challenge.tsx` lines 221-253):
insert the progress row (insert errors are ignored), read the profile, and
if it exists write back the incremented counters
(`(profile.total_lessons_completed || 0) + 1`,
`(profile.total_points || 0) + currentLesson.points`).  The whole body is
wrapped in try/catch with only a console.error in the handler, and the
`.single()` error object is never read, so no error of any kind is
surfaced to the caller: the second component is always `none`. -/
def saveProgress (db : Store) (uid : Str) (lesson : Lesson)
    (attemptCount : Nat) (hintsUsed : Nat) : Store × Option ScoringError :=
  let db1 := insertProgress db
    { user_id := uid, lesson_id := lesson.id,
      attempts := attemptCount, hints_used := hintsUsed }
  match getProfile db1 uid with
  | some p =>
      (updateProfileTotals db1 uid
        (p.total_lessons_completed.getD 0 + 1)
        (p.total_points.getD 0 + lesson.points), none)
  | none => (db1, none)

/-- Points key used by the leaderboard query ordering
(`.order('total_points', { ascending: false })`); rows are created with the
column defaulted to 0, so a null reads as 0. -/
def pointsOf (p : ProfileRow) : Nat := p.total_points.getD 0

/-- Relation describing what the supabase query in `fetchLeaderboard`
(`src/pages/Leaderboard.tsx` lines 41-61) may return: some ordering of all
profile rows that is weakly sorted by `total_points` descending — the query
names no secondary sort key, so the order among equal point totals is
unconstrained — cut to the first 50 rows by `.limit(50)`. -/
def leaderboardQueryOk (profiles res : List ProfileRow) : Prop :=
  ∃ full : List ProfileRow, full.Perm profiles ∧
    full.Sorted (fun a b => pointsOf b ≤ pointsOf a) ∧ res = full.take 50

/-- Rank assignment of `fetchLeaderboard`:
`data.map((profile, index) => (..., rank: index + 1))`. -/
def addRanks : Nat → List ProfileRow → List (ProfileRow × Nat)
  | _, [] => []
  | i, p :: ps => (p, i + 1) :: addRanks (i + 1) ps

/-- Model of `fetchLeaderboard` applied to the rows the query returned. -/
def fetchLeaderboard (res : List ProfileRow) : List (ProfileRow × Nat) :=
  addRanks 0 res

/-- One step of building the `dateMap` object in `fetchUserStats`
(`src/pages/Leaderboard.tsx` line 95): `dateMap[date] = (dateMap[date] || 0) + 1`
on a JavaScript object whose `Object.entries` enumeration is insertion
order.  Calendar days are abstract `Nat` indices. -/
def bump : List (Nat × Nat) → Nat → List (Nat × Nat)
  | [], d => [(d, 1)]
  | (k, v) :: rest, d =>
      if k = d then (k, v + 1) :: rest else (k, v) :: bump rest d

/-- The `dateMap` accumulated over the progress rows in fetch order. -/
def dateMap (days : List Nat) : List (Nat × Nat) :=
  days.foldl bump []

/-- Comparator of the `.sort((a, b) => new Date(a.date) - new Date(b.date))`
call: ascending by date key.  JavaScript `Array.prototype.sort` is stable;
`List.insertionSort` models it. -/
def dateLe (a b : Nat × Nat) : Prop := a.1 ≤ b.1

instance : DecidableRel dateLe := fun a b => Nat.decLe a.1 b.1

instance : IsTotal (Nat × Nat) dateLe := ⟨fun a b => Nat.le_total a.1 b.1⟩

instance : IsTrans (Nat × Nat) dateLe := ⟨fun _ _ _ h1 h2 => Nat.le_trans h1 h2⟩

/-- Model of JavaScript `arr.slice(-7)`: the last at-most-7 elements. -/
def lastSeven (l : List α) : List α := l.drop (l.length - 7)

/-- The `progressOverTime` series of `fetchUserStats`
(`src/pages/Leaderboard.tsx` lines 119-122): entries of the date map,
sorted ascending by date, last seven kept. -/
def progressOverTime (days : List Nat) : List (Nat × Nat) :=
  lastSeven (List.insertionSort dateLe (dateMap days))

/-- Specification-side description of the series: the distinct completion
days, ascending; the most recent seven of them; each paired with the number
of completions on that day. -/
def specSeries (days : List Nat) : List (Nat × Nat) :=
  (lastSeven (List.insertionSort (· ≤ ·) days.dedup)).map
    (fun d => (d, days.count d))

/-- Badge catalog row (`badges` table). -/
structure BadgeRow where
  id : Str
  badge_type : Str
  requirement_value : Nat
deriving DecidableEq

/-- UserBadge row (`user_badges` table; `UNIQUE(user_id, badge_id)`). -/
structure UserBadgeRow where
  user_id : Str
  badge_id : Str
deriving DecidableEq

/-- Aggregate statistics a badge predicate reads, per spec section 4.4:
profile counters plus history-derived tallies. -/
structure BadgeStats where
  total_lessons_completed : Nat
  current_streak : Nat
  languageCompleted : List (Str × Nat)
  languageTotal : List (Str × Nat)
  timeTakens : List Nat
  noHintCompletions : Nat
deriving DecidableEq

/-- Total lesson count of a language track in the catalog. -/
def langTotal (st : BadgeStats) (lang : Str) : Nat :=
  match st.languageTotal.find? (fun q => q.1 = lang) with
  | some q => q.2
  | none => 0

/-- Modelled from the spec: the type-specific badge predicates of section
4.4 (`first_debug`, `consecutive_solves`, `language_master`, `speed_demon`,
`accuracy_ace`); no badge evaluator exists under src/, only the
`user_badges` table and its read-side views. -/
def badgeSatisfied (b : BadgeRow) (st : BadgeStats) : Bool :=
  if b.badge_type = "first_debug".data then
    decide (st.total_lessons_completed ≥ 1)
  else if b.badge_type = "consecutive_solves".data then
    decide (st.current_streak ≥ b.requirement_value)
  else if b.badge_type = "language_master".data then
    st.languageCompleted.any (fun q => decide (langTotal st q.1 ≤ q.2))
  else if b.badge_type = "speed_demon".data then
    st.timeTakens.any (fun t => decide (t ≤ b.requirement_value))
  else if b.badge_type = "accuracy_ace".data then
    decide (st.noHintCompletions ≥ b.requirement_value)
  else
    false

/-- Row test for ownership of a badge by a user. -/
def ownsRow (u b : Str) (r : UserBadgeRow) : Bool :=
  r.user_id = u ∧ r.badge_id = b

/-- Modelled from the spec: `grantBadge(user, badge)` of section 6, an
idempotent insert honouring `UNIQUE(user_id, badge_id)` — a duplicate grant
is a no-op, not an error. -/
def grantBadge (store : List UserBadgeRow) (u b : Str) : List UserBadgeRow :=
  if store.any (ownsRow u b) then store
  else store ++ [{ user_id := u, badge_id := b }]

/-- Modelled from the spec: `evaluateBadges(user, profile, history)` of
section 4.4 — for each catalog badge not yet owned whose predicate holds
against the current statistics, create the UserBadge; owned badges are
skipped. -/
def evaluateBadges (catalog : List BadgeRow) (u : Str) (st : BadgeStats)
    (store : List UserBadgeRow) : List UserBadgeRow :=
  catalog.foldl (fun acc b =>
    if acc.any (ownsRow u b.id) then acc
    else if badgeSatisfied b st then grantBadge acc u b.id
    else acc) store

/-- Number of UserBadge rows held for a given (user, badge) pair. -/
def badgeCount (store : List UserBadgeRow) (u b : Str) : Nat :=
  (store.filter (ownsRow u b)).length

/-- Trimming the empty string yields the empty string. -/
lemma trimStr_nil : trimStr [] = [] := rfl

/-- Characterisation of the verdict of `checkSolution`. -/
lemma verdict_pass_iff (lesson : Lesson) (output : Str) :
    checkSolutionVerdict lesson output = Verdict.pass ↔
      trimStr output = trimStr lesson.expected_output := by
  unfold checkSolutionVerdict
  split
  · simp_all
  · simp_all

/-- Claim C1: the attempt evaluation returns Pass exactly when the trimmed
submitted output equals the trimmed expected output, and in particular the
empty submission passes exactly when the expected output trims to the
empty string. -/
theorem checkSolution_pass_iff_trim_eq (lesson : Lesson) (output : Str) :
    (checkSolutionVerdict lesson output = Verdict.pass ↔
      trimStr output = trimStr lesson.expected_output) ∧
    (checkSolutionVerdict lesson [] = Verdict.pass ↔
      trimStr lesson.expected_output = []) := by
  refine ⟨verdict_pass_iff lesson output, ?_⟩
  rw [verdict_pass_iff, trimStr_nil, eq_comm]

/-- Setting index 0 of a hints array makes position 0 read `true`. -/
lemma getD_setTrue_zero (bs : List Bool) : (setTrue bs 0).getD 0 false = true := by
  cases bs <;> rfl

/-- Claim C5: hint index 0 is auto-revealed exactly on a failed submission
whose incremented attempt counter is 2 on a lesson with at least one hint;
every other submission leaves the revealed-hints array unchanged. -/
theorem checkSolution_auto_hint (lesson : Lesson) (output : Str)
    (s : SessionState) :
    ((checkSolution lesson output s).2 = Verdict.fail ∧ s.attempts + 1 = 2 ∧
        lesson.hints ≠ [] →
      (checkSolution lesson output s).1.showHints = setTrue s.showHints 0 ∧
        (checkSolution lesson output s).1.showHints.getD 0 false = true) ∧
    (¬((checkSolution lesson output s).2 = Verdict.fail ∧ s.attempts + 1 = 2 ∧
        lesson.hints ≠ []) →
      (checkSolution lesson output s).1.showHints = s.showHints) := by
  simp only [checkSolution]
  split
  · exact ⟨fun hc => absurd hc.1 (by simp), fun _ => rfl⟩
  · split
    · next hcond =>
      refine ⟨fun _ => ⟨rfl, getD_setTrue_zero _⟩, fun hn => absurd ⟨rfl, hcond⟩ hn⟩
    · next hcond =>
      exact ⟨fun hc => absurd hc.2 hcond, fun _ => rfl⟩

/-- Fixture lesson (a non-python lesson with one hint, 10 points). -/
def exLesson : Lesson :=
  { id := "l1".data
    title := "Equality vs Identity".data
    language := "javascript".data
    difficulty := "easy".data
    description := "d".data
    starter_code := "s".data
    expected_output := "5".data
    hints := ["h1".data]
    points := 10 }

/-- Witness for claim C5 at a concrete failed second attempt. -/
theorem checkSolution_auto_hint_witness :
    (checkSolution exLesson "6".data { attempts := 1, showHints := [] }).1.showHints
      = [true] :=
  ((checkSolution_auto_hint exLesson "6".data
      { attempts := 1, showHints := [] }).1 (by decide)).1

/-- An insert into `user_progress` never changes `profiles`. -/
lemma insertProgress_profiles (db : Store) (r : ProgressRow) :
    (insertProgress db r).profiles = db.profiles := by
  unfold insertProgress
  split <;> rfl

/-- Profile lookup is unaffected by a progress insert. -/
lemma getProfile_insertProgress (db : Store) (r : ProgressRow) (uid : Str) :
    getProfile (insertProgress db r) uid = getProfile db uid := by
  unfold getProfile
  rw [insertProgress_profiles]

/-- The UPDATE of the two counter columns rewrites exactly the row the
lookup found. -/
lemma find?_update (l : List ProfileRow) (uid : Str) (c pts : Nat)
    (p : ProfileRow) (h : l.find? (fun q => q.user_id = uid) = some p) :
    (l.map (fun q =>
        if q.user_id = uid then
          { q with total_lessons_completed := some c, total_points := some pts }
        else q)).find? (fun q => q.user_id = uid) =
      some { p with total_lessons_completed := some c, total_points := some pts } := by
  induction l with
  | nil => simp at h
  | cons x xs ih =>
    by_cases hx : x.user_id = uid
    · rw [List.find?_cons_of_pos _ (by simpa using hx)] at h
      cases h
      rw [List.map_cons, if_pos hx, List.find?_cons_of_pos _ (by simpa using hx)]
    · rw [List.find?_cons_of_neg _ (by simpa using hx)] at h
      rw [List.map_cons, if_neg hx, List.find?_cons_of_neg _ (by simpa using hx)]
      exact ih h

/-- Claim C2: a completion adds exactly the lesson's point value to
`total_points` and exactly 1 to `total_lessons_completed`, with no other
adjustment; rows of other users are untouched. -/
theorem saveProgress_awards_points (db : Store) (uid : Str) (lesson : Lesson)
    (a h : Nat) (p : ProfileRow) (tl tp : Nat)
    (hp : getProfile db uid = some p)
    (htl : p.total_lessons_completed = some tl)
    (htp : p.total_points = some tp) :
    getProfile (saveProgress db uid lesson a h).1 uid =
      some { p with total_lessons_completed := some (tl + 1),
                    total_points := some (tp + lesson.points) } ∧
    ∀ q ∈ db.profiles, q.user_id ≠ uid →
      q ∈ (saveProgress db uid lesson a h).1.profiles := by
  simp only [saveProgress, getProfile_insertProgress, hp]
  constructor
  · show getProfile (updateProfileTotals _ uid _ _) uid = _
    unfold updateProfileTotals getProfile
    simp only [insertProgress_profiles]
    rw [htl, htp]
    simpa using find?_update db.profiles uid (tl + 1) (tp + lesson.points) p hp
  · intro q hq hne
    show q ∈ (updateProfileTotals _ uid _ _).profiles
    unfold updateProfileTotals
    simp only [insertProgress_profiles]
    have hfix : (fun r : ProfileRow =>
        if r.user_id = uid then
          { r with total_lessons_completed := some (p.total_lessons_completed.getD 0 + 1),
                   total_points := some (p.total_points.getD 0 + lesson.points) }
        else r) q = q := if_neg hne
    exact hfix ▸ List.mem_map_of_mem _ hq

/-- Fixture profile with streak 9 and 40 points. -/
def exProfile : ProfileRow :=
  { user_id := "u".data
    username := "ann".data
    created_at := 0
    total_lessons_completed := some 4
    total_points := some 40
    current_streak := some 9
    best_streak := some 9 }

/-- Fixture store holding only the fixture profile. -/
def exDb : Store := { user_progress := [], profiles := [exProfile] }

/-- Witness for claim C2 at the fixture store. -/
theorem saveProgress_awards_points_witness :
    getProfile (saveProgress exDb "u".data exLesson 1 0).1 "u".data =
      some { exProfile with total_lessons_completed := some 5,
                            total_points := some 50 } :=
  (saveProgress_awards_points exDb "u".data exLesson 1 0 exProfile 4 40
    (by decide) rfl rfl).1

/-- Claim C3 (evaluation of the code at the failing input): a completion by
a user whose profile holds current_streak = 9 and best_streak = 9 leaves
both streak fields at 9 — `saveProgress` writes only the two counter
columns and no code in the repository ever updates the streak columns. -/
theorem saveProgress_streaks_unchanged :
    (getProfile (saveProgress exDb "u".data exLesson 1 0).1 "u".data).map
        (fun p => (p.current_streak, p.best_streak)) = some (some 9, some 9) ∧
    (getProfile (saveProgress exDb "u".data exLesson 1 0).1 "u".data).map
        (fun p => p.total_points) = some (some 50) := by decide

/-- Fixture: the progress row persisted by an earlier completion. -/
def dupRow : ProgressRow :=
  { user_id := "u".data, lesson_id := "l1".data, attempts := 1, hints_used := 0 }

/-- Fixture store already holding a completion of `exLesson` by user u. -/
def dupDb : Store := { user_progress := [dupRow], profiles := [exProfile] }

/-- Claim C4 counterexample: a second completion of the same lesson (5
attempts, 2 hints) leaves the store holding the EARLIER record (attempts 1,
hints 0) — the plain INSERT is rejected by UNIQUE(user_id, lesson_id), so
the later completion's data is not persisted. -/
theorem saveProgress_keeps_earlier_record :
    (saveProgress dupDb "u".data exLesson 5 2).1.user_progress = [dupRow] ∧
    dupRow.attempts = 1 ∧ dupRow.hints_used = 0 := by decide

/-- Claim C4 amended: when a progress row for the (user, lesson) pair
already exists, `saveProgress` leaves `user_progress` entirely unchanged
(the duplicate insert is rejected and the error ignored) and surfaces no
error, so the pair still has exactly its earlier single record. -/
theorem saveProgress_duplicate_insert_noop (db : Store) (uid : Str)
    (lesson : Lesson) (a h : Nat)
    (hdup : db.user_progress.any (pairRow uid lesson.id) = true) :
    (saveProgress db uid lesson a h).1.user_progress = db.user_progress ∧
    (saveProgress db uid lesson a h).2 = none := by
  have hins : insertProgress db
      { user_id := uid, lesson_id := lesson.id, attempts := a, hints_used := h }
      = db := by
    unfold insertProgress
    rw [if_pos hdup]
  cases hg : getProfile db uid <;> simp [saveProgress, hins, hg, updateProfileTotals]

/-- Witness for claim C4 at the fixture store. -/
theorem saveProgress_duplicate_insert_noop_witness :
    (saveProgress dupDb "u".data exLesson 5 2).1.user_progress =
      dupDb.user_progress :=
  (saveProgress_duplicate_insert_noop dupDb "u".data exLesson 5 2 (by decide)).1

/-- Fixture store with no profile rows. -/
def noProfileDb : Store := { user_progress := [], profiles := [] }

/-- Claim C7 counterexample: when no profile exists for the user,
`saveProgress` surfaces no ProfileNotFound error — the result carries no
error at all (the `.single()` error object is never read and the catch
block only logs). -/
theorem saveProgress_missing_profile_silent :
    (saveProgress noProfileDb "u".data exLesson 1 0).2 ≠
      some ScoringError.ProfileNotFound ∧
    (saveProgress noProfileDb "u".data exLesson 1 0).1.profiles = [] := by decide

/-- Claim C7 amended: with no profile for the user the scoring step is
silently skipped — no error is surfaced, the profile table is unchanged,
and every already-persisted progress row is left in place. -/
theorem saveProgress_missing_profile_skips_scoring (db : Store) (uid : Str)
    (lesson : Lesson) (a h : Nat) (hp : getProfile db uid = none) :
    (saveProgress db uid lesson a h).2 = none ∧
    (saveProgress db uid lesson a h).1.profiles = db.profiles ∧
    ∀ r ∈ db.user_progress, r ∈ (saveProgress db uid lesson a h).1.user_progress := by
  simp only [saveProgress, getProfile_insertProgress, hp]
  refine ⟨trivial, insertProgress_profiles _ _, ?_⟩
  intro r hr
  unfold insertProgress
  split
  · exact hr
  · exact List.mem_append_left _ hr

/-- Witness for claim C7 at the empty store. -/
theorem saveProgress_missing_profile_skips_scoring_witness :
    (saveProgress noProfileDb "u".data exLesson 1 0).2 = none ∧
    (saveProgress noProfileDb "u".data exLesson 1 0).1.profiles =
      noProfileDb.profiles :=
  ⟨(saveProgress_missing_profile_skips_scoring noProfileDb "u".data exLesson 1 0
      (by decide)).1,
   (saveProgress_missing_profile_skips_scoring noProfileDb "u".data exLesson 1 0
      (by decide)).2.1⟩

/-- Rank labelling preserves list length. -/
lemma addRanks_length (l : List ProfileRow) : ∀ i, (addRanks i l).length = l.length := by
  induction l with
  | nil => intro i; rfl
  | cons p ps ih => intro i; simp [addRanks, ih]

/-- The rank stored at position k of `addRanks i l` is i + k + 1. -/
lemma addRanks_get (l : List ProfileRow) :
    ∀ i k (hk : k < (addRanks i l).length), ((addRanks i l).get ⟨k, hk⟩).2 = i + k + 1 := by
  induction l with
  | nil => intro i k hk; simp [addRanks] at hk
  | cons p ps ih =>
    intro i k hk
    cases k with
    | zero => rfl
    | succ k =>
      have := ih (i + 1) k (by simpa [addRanks, addRanks_length] using hk)
      simpa [addRanks, Nat.add_assoc, Nat.add_comm, Nat.add_left_comm] using this

/-- Every entry of `addRanks i l` carries a profile of l. -/
lemma addRanks_mem (l : List ProfileRow) :
    ∀ i q, q ∈ addRanks i l → q.1 ∈ l := by
  induction l with
  | nil => intro i q hq; simp [addRanks] at hq
  | cons p ps ih =>
    intro i q hq
    rcases List.mem_cons.mp hq with h | h
    · subst h; exact List.mem_cons_self _ _
    · exact List.mem_cons_of_mem _ (ih (i + 1) q h)

/-- Rank labelling preserves pairwise order on the profile components. -/
lemma addRanks_pairwise (R : ProfileRow → ProfileRow → Prop) (l : List ProfileRow) :
    ∀ i, l.Pairwise R → (addRanks i l).Pairwise (fun a b => R a.1 b.1) := by
  induction l with
  | nil => intro i _; exact List.Pairwise.nil
  | cons p ps ih =>
    intro i hl
    rcases List.pairwise_cons.mp hl with ⟨hhead, htail⟩
    exact List.pairwise_cons.mpr
      ⟨fun q hq => hhead q.1 (addRanks_mem ps (i + 1) q hq), ih (i + 1) htail⟩

/-- Claim C6 amended: for any rows the leaderboard query may return, the
ranked output is weakly sorted by points descending, each entry carries
rank = 1-based position, at most 50 entries are produced, and every entry
comes from the profile table; no tie-break on creation time is enforced. -/
theorem fetchLeaderboard_sorted_ranked (profiles res : List ProfileRow)
    (hq : leaderboardQueryOk profiles res) :
    List.Sorted (fun a b : ProfileRow × Nat => pointsOf b.1 ≤ pointsOf a.1)
      (fetchLeaderboard res) ∧
    (∀ k (hk : k < (fetchLeaderboard res).length),
      ((fetchLeaderboard res).get ⟨k, hk⟩).2 = k + 1) ∧
    (fetchLeaderboard res).length ≤ 50 ∧
    (∀ e ∈ fetchLeaderboard res, e.1 ∈ profiles) := by
  obtain ⟨full, hperm, hsort, hres⟩ := hq
  subst hres
  have hsort50 : (full.take 50).Sorted (fun a b => pointsOf b ≤ pointsOf a) :=
    List.Pairwise.sublist (List.take_sublist 50 full) hsort
  refine ⟨addRanks_pairwise _ _ 0 hsort50, ?_, ?_, ?_⟩
  · intro k hk
    simpa using addRanks_get (full.take 50) 0 k hk
  · show (addRanks 0 (full.take 50)).length ≤ 50
    rw [addRanks_length]
    simpa using Nat.min_le_left 50 full.length
  · intro e he
    exact hperm.subset ((List.take_sublist 50 full).subset
      (addRanks_mem (full.take 50) 0 e he))

/-- Fixture: profile created at time 1 with 100 points. -/
def pA : ProfileRow :=
  { user_id := "a".data, username := "a".data, created_at := 1,
    total_lessons_completed := some 10, total_points := some 100,
    current_streak := none, best_streak := none }

/-- Fixture: profile created later, at time 2, also with 100 points. -/
def pB : ProfileRow :=
  { user_id := "b".data, username := "b".data, created_at := 2,
    total_lessons_completed := some 10, total_points := some 100,
    current_streak := none, best_streak := none }

/-- Claim C6 counterexample: with two equal-point profiles created at times
1 < 2, the ordering with the later-created profile first is a perfectly
valid result of the code's query (which sorts only on total_points), and
`fetchLeaderboard` then ranks the later-created profile above the
earlier-created one — the claimed creation-time tie-break does not hold. -/
theorem fetchLeaderboard_tie_order_unconstrained :
    leaderboardQueryOk [pA, pB] [pB, pA] ∧
    pointsOf pA = pointsOf pB ∧ pA.created_at < pB.created_at ∧
    fetchLeaderboard [pB, pA] = [(pB, 1), (pA, 2)] := by
  refine ⟨⟨[pB, pA], ?_, ?_, rfl⟩, by decide, by decide, by decide⟩
  · decide
  · decide

/-- Witness for claim C6 on a singleton profile table. -/
theorem fetchLeaderboard_sorted_ranked_witness :
    (fetchLeaderboard [pA]).length ≤ 50 :=
  (fetchLeaderboard_sorted_ranked [pA] [pA]
    ⟨[pA], List.Perm.refl _, List.sorted_singleton _, rfl⟩).2.2.1

/-- Counting badge rows distributes over an appended row. -/
lemma badgeCount_append (store : List UserBadgeRow) (r : UserBadgeRow)
    (u b : Str) :
    badgeCount (store ++ [r]) u b =
      badgeCount store u b + (if ownsRow u b r = true then 1 else 0) := by
  simp only [badgeCount, List.filter_append]
  rw [List.length_append]
  congr 1
  by_cases h : ownsRow u b r = true
  · simp [List.filter, h]
  · simp [List.filter, h]

/-- If no row of the store is owned by (u, b), the pair's count is 0. -/
lemma badgeCount_eq_zero_of_not_any (store : List UserBadgeRow) (u b : Str)
    (hno : store.any (ownsRow u b) = false) : badgeCount store u b = 0 := by
  simp only [badgeCount, List.length_eq_zero]
  rw [List.filter_eq_nil]
  intro a ha
  have := List.any_eq_false.mp hno a ha
  simpa using this

/-- The idempotent insert keeps every pair's row count at most 1. -/
lemma grantBadge_count_le (store : List UserBadgeRow) (u b : Str)
    (hinv : ∀ u' b', badgeCount store u' b' ≤ 1) :
    ∀ u' b', badgeCount (grantBadge store u b) u' b' ≤ 1 := by
  intro u' b'
  unfold grantBadge
  split
  · exact hinv u' b'
  · next hno =>
    rw [badgeCount_append]
    by_cases hub : ownsRow u' b' { user_id := u, badge_id := b } = true
    · have hu : u = u' ∧ b = b' := by simpa [ownsRow] using hub
      rw [hub, if_pos rfl, ← hu.1, ← hu.2,
        badgeCount_eq_zero_of_not_any store u b (Bool.not_eq_true _ ▸ hno)]
    · rw [if_neg hub]
      exact hinv u' b'

/-- One badge-evaluation pass keeps every pair's row count at most 1. -/
lemma evaluateBadges_count_le (catalog : List BadgeRow) (u : Str)
    (st : BadgeStats) :
    ∀ store, (∀ u' b', badgeCount store u' b' ≤ 1) →
      ∀ u' b', badgeCount (evaluateBadges catalog u st store) u' b' ≤ 1 := by
  induction catalog with
  | nil => exact fun store h => h
  | cons bdg rest ih =>
    intro store h
    apply ih
    intro u' b'
    show badgeCount
      (if store.any (ownsRow u bdg.id) then store
       else if badgeSatisfied bdg st then grantBadge store u bdg.id
       else store) u' b' ≤ 1
    split
    · exact h u' b'
    · split
      · exact grantBadge_count_le store u bdg.id h u' b'
      · exact h u' b'

/-- Claim C8: badge evaluation is idempotent — starting from a store with
at most one UserBadge row per (user, badge) pair, any number of evaluation
passes against unchanged statistics still leaves at most one row per pair. -/
theorem evaluateBadges_idempotent (catalog : List BadgeRow) (u : Str)
    (st : BadgeStats) (store : List UserBadgeRow)
    (hinv : ∀ u' b', badgeCount store u' b' ≤ 1) (n : Nat) :
    ∀ u' b', badgeCount
      (Nat.iterate (evaluateBadges catalog u st) n store) u' b' ≤ 1 := by
  induction n generalizing store with
  | zero => exact hinv
  | succ n ihn =>
    intro u' b'
    rw [Function.iterate_succ_apply]
    exact ihn (evaluateBadges catalog u st store)
      (evaluateBadges_count_le catalog u st store hinv) u' b'

/-- Fixture badge: first_debug with requirement 1. -/
def bFirst : BadgeRow :=
  { id := "b1".data, badge_type := "first_debug".data, requirement_value := 1 }

/-- Fixture statistics satisfying the first_debug predicate. -/
def exStats : BadgeStats :=
  { total_lessons_completed := 1, current_streak := 0,
    languageCompleted := [], languageTotal := [], timeTakens := [],
    noHintCompletions := 0 }

/-- Witness for claim C8: two passes over an empty store grant at most one
row for the pair. -/
theorem evaluateBadges_idempotent_witness :
    badgeCount (Nat.iterate (evaluateBadges [bFirst] "u".data exStats) 2 [])
      "u".data "b1".data ≤ 1 :=
  evaluateBadges_idempotent [bFirst] "u".data exStats []
    (fun _ _ => by simp [badgeCount]) 2 "u".data "b1".data

lemma dropWhile_cons_false {α : Type} (p : α → Bool) (l : List α) (c : α)
    (t : List α) (h : l.dropWhile p = c :: t) : p c = false := by
  induction l with
  | nil => simp at h
  | cons a as ih =>
    rw [List.dropWhile_cons] at h
    split at h
    · exact ih h
    · next hpa =>
      obtain ⟨rfl, rfl⟩ := List.cons.injEq a as c t ▸ h
      simpa using hpa

/-- The banner starts with a non-whitespace character, and an already
trimmed non-empty string ends with one, so trimming the banner-prefixed
string changes nothing. -/
lemma trimStr_banner (s : Str) (hne : trimStr s ≠ []) :
    trimStr (successLine ++ trimStr s) = successLine ++ trimStr s := by
  obtain ⟨c, t, hct⟩ :
      ∃ c t, (s.dropWhile isWs).reverse.dropWhile isWs = c :: t := by
    have hr : (s.dropWhile isWs).reverse.dropWhile isWs ≠ [] := by
      intro h0
      apply hne
      show ((s.dropWhile isWs).reverse.dropWhile isWs).reverse = []
      rw [h0]
      rfl
    exact List.exists_cons_of_ne_nil hr
  have hc : isWs c = false := dropWhile_cons_false isWs _ c t hct
  have hc' : ¬ isWs c = true := by simp [hc]
  have hC : ¬ isWs 'C' = true := by decide
  have hsl : successLine = 'C' :: "ode executed successfully!\n".data := rfl
  have hts : trimStr s = (c :: t).reverse := by
    show ((s.dropWhile isWs).reverse.dropWhile isWs).reverse = _
    rw [hct]
  rw [hts]
  simp only [trimStr]
  have h1 : (successLine ++ (c :: t).reverse).dropWhile isWs
      = successLine ++ (c :: t).reverse := by
    rw [hsl, List.cons_append, List.dropWhile_cons, if_neg hC]
  rw [h1, List.reverse_append, List.reverse_reverse, List.cons_append,
    List.dropWhile_cons, if_neg hc', ← List.cons_append,
    List.reverse_append, List.reverse_reverse]

/-- Claim C10 amended: for every lesson outside the special python branch,
`runCode` sets the output to the banner followed by the TRIMMED expected
output, regardless of the submitted code; whenever the trimmed expected
output is non-empty, checking that output therefore always fails. -/
theorem runCode_generic_always_fails (lesson : Lesson) (code : Str)
    (hnot : ¬(lesson.language = "python".data ∧
      lesson.title = "Off-by-One Error in Loop".data)) :
    runCode lesson code = successLine ++ trimStr lesson.expected_output ∧
    (trimStr lesson.expected_output ≠ [] →
      checkSolutionVerdict lesson (runCode lesson code) = Verdict.fail) := by
  have hrc : runCode lesson code = successLine ++ trimStr lesson.expected_output := by
    simp only [runCode]
    rw [if_neg hnot]
  refine ⟨hrc, fun hne => ?_⟩
  rw [hrc]
  unfold checkSolutionVerdict
  rw [if_neg]
  intro heq
  rw [trimStr_banner _ hne] at heq
  have hlen := congrArg List.length heq
  rw [List.length_append] at hlen
  have h28 : successLine.length = 28 := rfl
  omega

/-- Fixture lesson whose expected output carries surrounding whitespace. -/
def wsLesson : Lesson :=
  { id := "l2".data
    title := "W".data
    language := "javascript".data
    difficulty := "easy".data
    description := "d".data
    starter_code := "s".data
    expected_output := " x ".data
    hints := []
    points := 5 }

/-- Claim C10 counterexample: the simulated output is NOT the banner
concatenated with the lesson's raw expected output — the code concatenates
the trimmed expected output, which differs once the expected output has
surrounding whitespace. -/
theorem runCode_not_banner_plus_raw_expected :
    runCode wsLesson "whatever".data ≠
      successLine ++ wsLesson.expected_output ∧
    ¬(wsLesson.language = "python".data ∧
      wsLesson.title = "Off-by-One Error in Loop".data) := by decide

/-- Witness for claim C10: the fixture javascript lesson can never be
passed through the simulated run. -/
theorem runCode_generic_always_fails_witness :
    checkSolutionVerdict exLesson (runCode exLesson "code".data) = Verdict.fail :=
  (runCode_generic_always_fails exLesson "code".data (by decide)).2 (by decide)

/-- Keys of the date map, in insertion order. -/
def keysOf (m : List (Nat × Nat)) : List Nat := m.map Prod.fst

/-- Value stored for a key in the date map (0 when absent). -/
def valAt : List (Nat × Nat) → Nat → Nat
  | [], _ => 0
  | (k, v) :: rest, d => if k = d then v else valAt rest d

/-- Strict date order on map entries. -/
def dateLt (a b : Nat × Nat) : Prop := a.1 < b.1

instance : IsAntisymm (Nat × Nat) dateLt :=
  ⟨fun _ _ h1 h2 => absurd (lt_trans h1 h2) (lt_irrefl _)⟩

/-- Keys after a bump: unchanged when present, appended when new. -/
lemma keysOf_bump (m : List (Nat × Nat)) (d : Nat) :
    keysOf (bump m d) = if d ∈ keysOf m then keysOf m else keysOf m ++ [d] := by
  induction m with
  | nil => simp [bump, keysOf]
  | cons kv rest ih =>
    obtain ⟨k, v⟩ := kv
    by_cases hk : k = d
    · subst hk
      simp [bump, keysOf]
    · simp only [bump, if_neg hk, keysOf, List.map_cons] at ih ⊢
      rw [ih]
      by_cases hd : d ∈ rest.map Prod.fst
      · rw [if_pos hd, if_pos (List.mem_cons_of_mem _ hd)]
      · rw [if_neg hd,
          if_neg (fun hmem => by
            rcases List.mem_cons.mp hmem with h | h
            · exact hk h.symm
            · exact hd h),
          List.cons_append]

/-- Bumping a key increments its stored value. -/
lemma valAt_bump (m : List (Nat × Nat)) (d : Nat) :
    valAt (bump m d) d = valAt m d + 1 := by
  induction m with
  | nil => simp [bump, valAt]
  | cons kv rest ih =>
    obtain ⟨k, v⟩ := kv
    by_cases hk : k = d
    · subst hk
      simp [bump, valAt]
    · simp [bump, valAt, hk, ih]

/-- Bumping a key leaves every other value unchanged. -/
lemma valAt_bump_ne (m : List (Nat × Nat)) (d x : Nat) (hx : x ≠ d) :
    valAt (bump m d) x = valAt m x := by
  induction m with
  | nil => simp [bump, valAt, Ne.symm hx]
  | cons kv rest ih =>
    obtain ⟨k, v⟩ := kv
    by_cases hk : k = d
    · subst hk
      simp [bump, valAt, Ne.symm hx]
    · simp [bump, valAt, hk, ih]

/-- Under distinct keys, each stored pair carries the value of its key. -/
lemma mem_valAt (m : List (Nat × Nat)) (hnd : (keysOf m).Nodup)
    (p : Nat × Nat) (hp : p ∈ m) : p.2 = valAt m p.1 := by
  induction m with
  | nil => simp at hp
  | cons kv rest ih =>
    obtain ⟨k, v⟩ := kv
    rw [keysOf, List.map_cons, List.nodup_cons] at hnd
    rcases List.mem_cons.mp hp with h | h
    · subst h
      simp [valAt]
    · have hk : p.1 ≠ k := by
        intro hk0
        apply hnd.1
        rw [← hk0]
        exact List.mem_map.mpr ⟨p, h, rfl⟩
      rw [valAt, if_neg (fun hh => hk hh.symm)]
      exact ih hnd.2 h

/-- Every key of the map occurs as a pair with its stored value. -/
lemma keys_mem_valAt (m : List (Nat × Nat)) (x : Nat) (hx : x ∈ keysOf m) :
    (x, valAt m x) ∈ m := by
  induction m with
  | nil => simp [keysOf] at hx
  | cons kv rest ih =>
    obtain ⟨k, v⟩ := kv
    by_cases hk : k = x
    · subst hk
      rw [valAt, if_pos rfl]
      exact List.mem_cons_self _ _
    · rw [keysOf, List.map_cons, List.mem_cons] at hx
      rcases hx with h | h
      · exact absurd h.symm hk
      · rw [valAt, if_neg hk]
        exact List.mem_cons_of_mem _ (ih h)

/-- Invariant of the date-map fold: distinct keys, keys are exactly the
processed days, and every value is the processed multiplicity of its key. -/
def goodMap (P : List Nat) (m : List (Nat × Nat)) : Prop :=
  (keysOf m).Nodup ∧ (∀ x, x ∈ keysOf m ↔ x ∈ P) ∧ ∀ x, valAt m x = P.count x

/-- The empty map is good for the empty history. -/
lemma goodMap_nil : goodMap [] [] :=
  ⟨List.nodup_nil, fun x => by simp [keysOf], fun x => by simp [valAt]⟩

/-- One bump preserves the invariant, shifting the processed list by one. -/
lemma goodMap_bump (P : List Nat) (m : List (Nat × Nat)) (d : Nat)
    (h : goodMap P m) : goodMap (P ++ [d]) (bump m d) := by
  obtain ⟨hnd, hkeys, hval⟩ := h
  refine ⟨?_, ?_, ?_⟩
  · rw [keysOf_bump]
    split
    · exact hnd
    · next hdnot =>
      rw [List.nodup_append]
      exact ⟨hnd, List.nodup_singleton d,
        fun a ha hb => hdnot ((List.mem_singleton.mp hb) ▸ ha)⟩
  · intro x
    rw [keysOf_bump]
    split
    · next hdin =>
      constructor
      · intro hx
        exact List.mem_append_left _ ((hkeys x).mp hx)
      · intro hx
        rcases List.mem_append.mp hx with h1 | h1
        · exact (hkeys x).mpr h1
        · exact (List.mem_singleton.mp h1) ▸ hdin
    · next hdnot =>
      constructor
      · intro hx
        rcases List.mem_append.mp hx with h1 | h1
        · exact List.mem_append_left _ ((hkeys x).mp h1)
        · exact List.mem_append_right _ h1
      · intro hx
        rcases List.mem_append.mp hx with h1 | h1
        · exact List.mem_append_left _ ((hkeys x).mpr h1)
        · exact List.mem_append_right _ h1
  · intro x
    by_cases hx : x = d
    · subst hx
      rw [valAt_bump, hval x, List.count_append]
      simp
    · rw [valAt_bump_ne m d x hx, hval x, List.count_append]
      simp [hx]

/-- Folding the whole history preserves the invariant. -/
lemma goodMap_fold (ds : List Nat) :
    ∀ (P : List Nat) (m : List (Nat × Nat)),
      goodMap P m → goodMap (P ++ ds) (ds.foldl bump m) := by
  induction ds with
  | nil =>
    intro P m h
    simpa using h
  | cons d rest ih =>
    intro P m h
    have h2 := ih (P ++ [d]) (bump m d) (goodMap_bump P m d h)
    simpa [List.append_assoc] using h2

/-- The accumulated date map satisfies the invariant for the history. -/
lemma goodMap_dateMap (ds : List Nat) : goodMap ds (dateMap ds) := by
  simpa using goodMap_fold ds [] [] goodMap_nil

/-- The date map's keys are distinct. -/
lemma dateMap_keys_nodup (ds : List Nat) : (keysOf (dateMap ds)).Nodup :=
  (goodMap_dateMap ds).1

/-- The date map itself has no duplicate entries. -/
lemma dateMap_nodup (ds : List Nat) : (dateMap ds).Nodup :=
  List.Nodup.of_map Prod.fst (dateMap_keys_nodup ds)

/-- Membership in the date map: exactly the days of the history, each
paired with its multiplicity. -/
lemma mem_dateMap (ds : List Nat) (p : Nat × Nat) :
    p ∈ dateMap ds ↔ p.1 ∈ ds ∧ p.2 = ds.count p.1 := by
  obtain ⟨hnd, hkeys, hval⟩ := goodMap_dateMap ds
  constructor
  · intro hp
    refine ⟨(hkeys p.1).mp (List.mem_map_of_mem Prod.fst hp), ?_⟩
    rw [← hval p.1]
    exact mem_valAt (dateMap ds) hnd p hp
  · rintro ⟨h1, h2⟩
    obtain ⟨x, y⟩ := p
    have h3 : x ∈ keysOf (dateMap ds) := (hkeys x).mpr h1
    have h4 := keys_mem_valAt (dateMap ds) x h3
    have h5 : valAt (dateMap ds) x = y := by
      rw [hval x]
      exact h2.symm
    exact h5 ▸ h4

/-- The date map is a permutation of the distinct days paired with their
multiplicities. -/
lemma dateMap_perm (ds : List Nat) :
    (dateMap ds).Perm (ds.dedup.map (fun d => (d, ds.count d))) := by
  have hnd2 : (ds.dedup.map (fun d => (d, ds.count d))).Nodup :=
    List.Nodup.map (fun a b hab => congrArg Prod.fst hab) ds.nodup_dedup
  apply (List.perm_ext_iff_of_nodup (dateMap_nodup ds) hnd2).mpr
  intro p
  rw [mem_dateMap]
  constructor
  · rintro ⟨h1, h2⟩
    apply List.mem_map.mpr
    refine ⟨p.1, List.mem_dedup.mpr h1, ?_⟩
    rw [← h2]
  · intro hp
    obtain ⟨d, hd, hpd⟩ := List.mem_map.mp hp
    cases hpd
    exact ⟨List.mem_dedup.mp hd, rfl⟩

/-- Weak sortedness plus distinct keys gives strict sortedness. -/
lemma pairwise_dateLt_of_le_nodup (l : List (Nat × Nat))
    (hs : l.Pairwise dateLe) (hn : (l.map Prod.fst).Nodup) :
    l.Pairwise dateLt := by
  have hne : l.Pairwise (fun a b : Nat × Nat => a.1 ≠ b.1) :=
    (List.pairwise_map).mp hn
  exact (hs.and hne).imp (fun h => lt_of_le_of_ne h.1 h.2)

/-- The sorted date map is strictly sorted on keys. -/
lemma sortPairs_sorted_lt (ds : List Nat) :
    (List.insertionSort dateLe (dateMap ds)).Pairwise dateLt := by
  apply pairwise_dateLt_of_le_nodup
  · exact List.sorted_insertionSort dateLe (dateMap ds)
  · have hperm := (List.perm_insertionSort dateLe (dateMap ds)).map Prod.fst
    exact hperm.symm.nodup (dateMap_keys_nodup ds)

/-- The specification-side series is strictly sorted on keys. -/
lemma specPairs_sorted_lt (ds : List Nat) :
    ((List.insertionSort (· ≤ ·) ds.dedup).map
      (fun d => (d, ds.count d))).Pairwise dateLt := by
  have hs : (List.insertionSort (· ≤ ·) ds.dedup).Sorted (· ≤ ·) :=
    List.sorted_insertionSort _ _
  have hn : (List.insertionSort (· ≤ ·) ds.dedup).Nodup :=
    (List.perm_insertionSort _ _).symm.nodup ds.nodup_dedup
  have hlt : (List.insertionSort (· ≤ ·) ds.dedup).Pairwise (· < ·) :=
    (hs.and hn).imp (fun h => lt_of_le_of_ne h.1 h.2)
  exact (List.pairwise_map).mpr (hlt.imp (fun h => h))

/-- The sorted date map equals the ascending distinct days paired with
their multiplicities. -/
lemma sortPairs_eq (ds : List Nat) :
    List.insertionSort dateLe (dateMap ds) =
      (List.insertionSort (· ≤ ·) ds.dedup).map (fun d => (d, ds.count d)) := by
  apply List.eq_of_perm_of_sorted (r := dateLt)
  · exact (List.perm_insertionSort dateLe (dateMap ds)).trans
      ((dateMap_perm ds).trans
        ((List.perm_insertionSort (· ≤ ·) ds.dedup).symm.map _))
  · exact sortPairs_sorted_lt ds
  · exact specPairs_sorted_lt ds

/-- Claim C9: the per-day activity series equals the specification-side
series — one entry per calendar day with a completion, restricted to the
most recent 7 distinct days present, each carrying the day's completion
count, sorted ascending by date. -/
theorem progressOverTime_eq_specSeries (days : List Nat) :
    progressOverTime days = specSeries days := by
  unfold progressOverTime specSeries lastSeven
  rw [sortPairs_eq, List.length_map, List.map_drop]
